import Mathlib

/-!
Verification of the klstore append-only log store (Rust) against its
natural-language specification.  The definitions below are shallow
embeddings of the functions in `src/rust/src`: machine integers become
`Nat` / `Int` (with explicit `% 2^w` at serialization boundaries where
the code writes fixed-width little-endian words), byte buffers become
`List Nat`, and fallible code returns `Option`.
-/

namespace KLStore

/-- `u64::MAX` as a natural number. -/
def u64Max : Nat := 2 ^ 64 - 1

/-- `u128::MAX` as a natural number (the "absent nonce" sentinel). -/
def u128Max : Nat := 2 ^ 128 - 1

/-- `i64::MIN` as an integer. -/
def i64Min : Int := -(2 ^ 63)

/-- `i64::MAX` as an integer. -/
def i64Max : Int := 2 ^ 63 - 1

/-- Iteration order for reads (source: `lib.rs`, `IterationOrder`). -/
inductive IterationOrder where
  | Forwards
  | Backwards
deriving DecidableEq, Repr

/-- One record handed to `append` (source: `lib.rs`, `Insertion`).
`value` is the opaque byte payload, `nonce` the optional u128 dedup
token, `timestamp` the optional caller-supplied i64 milliseconds. -/
structure Insertion where
  value : List Nat
  nonce : Option Nat
  timestamp : Option Int
deriving DecidableEq, Repr

/-- One record returned by a read (source: `lib.rs`, `Item`). -/
structure Item where
  offset : Nat
  timestamp : Int
  nonce : Option Nat
  value : List Nat
deriving DecidableEq, Repr

/-- Result of the append-time nonce filter
(source: `common/items.rs`, `NonceFilterResult`). -/
structure NonceFilterResult where
  items : List Insertion
  first_nonce : Option Nat
  first_potential_nonce : Nat
  next_nonce : Nat
deriving DecidableEq, Repr

/-- The stateful closure of `nonce_filter` unrolled into a recursion:
walks the input left to right carrying the running `first_nonce` and
`next_nonce` and returns the kept records together with the final pair
(source: `common/items.rs` lines 265-292). -/
def nonceFilterGo : List Insertion → Option Nat → Nat → (List Insertion × Option Nat × Nat)
  | [], firstNonce, nextNonce => ([], firstNonce, nextNonce)
  | i :: rest, firstNonce, nextNonce =>
    match i.nonce with
    | some n =>
      if n ≥ nextNonce then
        let firstNonce' := match firstNonce with
          | none => some n
          | some v => some v
        let r := nonceFilterGo rest firstNonce' (n + 1)
        (i :: r.1, r.2)
      else
        nonceFilterGo rest firstNonce nextNonce
    | none =>
      let r := nonceFilterGo rest firstNonce nextNonce
      (i :: r.1, r.2)

/-- `nonce_filter` (source: `common/items.rs` lines 265-292). -/
def nonce_filter (records : List Insertion) (next_nonce : Nat) : NonceFilterResult :=
  let r := nonceFilterGo records none next_nonce
  { items := r.1
    first_nonce := r.2.1
    first_potential_nonce := next_nonce
    next_nonce := r.2.2 }

/-- The specification's description of the nonce filter as a
left-to-right walk: `NonceWalk n input kept m` holds when walking
`input` with running next-nonce `n` keeps exactly `kept` (in order) and
finishes with running next-nonce `m`.  The three rules are the three
bullet points of spec section 4.5 step 2. -/
inductive NonceWalk : Nat → List Insertion → List Insertion → Nat → Prop where
  | nil (n : Nat) : NonceWalk n [] [] n
  | keepNoNonce {n m : Nat} {i : Insertion} {rest out : List Insertion} :
      i.nonce = none → NonceWalk n rest out m → NonceWalk n (i :: rest) (i :: out) m
  | dropLow {n m k : Nat} {i : Insertion} {rest out : List Insertion} :
      i.nonce = some k → k < n → NonceWalk n rest out m → NonceWalk n (i :: rest) out m
  | keepHigh {n m k : Nat} {i : Insertion} {rest out : List Insertion} :
      i.nonce = some k → n ≤ k → NonceWalk (k + 1) rest out m → NonceWalk n (i :: rest) (i :: out) m

/-- The filter record carried into record deserialization
(source: `common/items.rs`, `DefaultedItemFilter`). -/
structure DefaultedItemFilter where
  max_size : Nat
  start_offset : Nat
  start_timestamp : Int
  start_nonce : Nat
  nonce_defined : Bool
  order : IterationOrder
deriving DecidableEq, Repr

/-- The caller-facing optional filter (source: `lib.rs`, `ItemFilter`). -/
structure ItemFilter where
  start_offset : Option Nat
  start_timestamp : Option Int
  start_nonce : Option Nat
deriving DecidableEq, Repr

/-- `DefaultedItemFilter::from` (source: `common/items.rs` lines 54-117).
Missing fields saturate at the direction-appropriate extreme; an
undefined filter clears `nonce_defined`. -/
def DefaultedItemFilter.from (filter : Option ItemFilter) (max_size : Nat)
    (order : IterationOrder) : DefaultedItemFilter :=
  match order with
  | .Forwards =>
    match filter with
    | some v =>
      { max_size
        start_offset := v.start_offset.getD 0
        start_timestamp := v.start_timestamp.getD i64Min
        start_nonce := v.start_nonce.getD 0
        nonce_defined := true
        order }
    | none =>
      { max_size
        start_offset := 0
        start_timestamp := i64Min
        start_nonce := 0
        nonce_defined := false
        order }
  | .Backwards =>
    match filter with
    | some v =>
      { max_size
        start_offset := v.start_offset.getD u64Max
        start_timestamp := v.start_timestamp.getD i64Max
        start_nonce := v.start_nonce.getD u128Max
        nonce_defined := true
        order }
    | none =>
      { max_size
        start_offset := u64Max
        start_timestamp := i64Max
        start_nonce := u128Max
        nonce_defined := false
        order }

/-- Parsed data-object name metadata (source: `common/keypath.rs`, `KeyPath`). -/
structure KeyPath where
  first_offset : Nat
  last_offset : Nat
  min_timestamp : Int
  max_timestamp : Int
  first_nonce : Nat
  next_nonce : Nat
  size : Nat
  prior_start_offset : Nat
deriving DecidableEq, Repr

/-- `KeyPath::matches` (source: `common/keypath.rs` lines 121-134). -/
def KeyPath.matches (p : KeyPath) (f : DefaultedItemFilter) : Bool :=
  match f.order with
  | .Forwards =>
    decide (f.start_offset ≤ p.last_offset) &&
      decide (f.start_nonce < p.next_nonce) &&
      decide (f.start_timestamp ≤ p.max_timestamp)
  | .Backwards =>
    decide (f.start_offset ≥ p.first_offset) &&
      decide (f.start_nonce ≥ p.first_nonce) &&
      decide (f.start_timestamp ≥ p.min_timestamp)

/-- Per-key metadata (source: `lib.rs`, `KeyMetadata`). -/
structure KeyMetadata where
  next_offset : Nat
  next_nonce : Nat
deriving DecidableEq, Repr

/-- Watermark object contents (source: `common/keypath.rs`, `Watermark`). -/
structure Watermark where
  offset : Nat
deriving DecidableEq, Repr

/-- Cached per-key writer state (source: `s3/cache.rs`, `CachedKey`). -/
structure CachedKey where
  metadata : KeyMetadata
  uncompacted_objects : Nat
  uncompacted_records : Nat
  uncompacted_size : Nat
  prior_start_offset : Nat
  watermark : Watermark
deriving DecidableEq, Repr

/-! ### Key-state LRU cache (source: `common/cache.rs`, `StoreCache`)

The `LinkedHashMap` is modelled as an insertion-ordered association list
with unique keys; the oldest entry is at the front. -/

/-- A cache key is a `(keyspace, key)` pair. -/
def CKey : Type := String × String

instance : DecidableEq CKey := instDecidableEqProd

/-- Association-list lookup (models `LinkedHashMap::get`). -/
def cacheLookup {V : Type} (k : CKey) : List (CKey × V) → Option V
  | [] => none
  | (k2, v) :: rest => if k2 = k then some v else cacheLookup k rest

/-- In-place value replacement for an existing key (models
`LinkedHashMap::insert` on a present key: position unchanged). -/
def cacheReplace {V : Type} (k : CKey) (v : V) (m : List (CKey × V)) : List (CKey × V) :=
  m.map fun p => if p.1 = k then (k, v) else p

/-- The eviction step of `StoreCache` (source: `common/cache.rs` lines
35-37 and 44-46): pop the front (oldest) entry only when the size
strictly exceeds `max_cached_keys` and strictly exceeds 1. -/
def cacheEvict {V : Type} (maxKeys : Nat) (m : List (CKey × V)) : List (CKey × V) :=
  if m.length > maxKeys ∧ m.length > 1 then m.drop 1 else m

/-- One externally triggered cache operation.  `get k loaded` is
`get_or_read_key` where `loaded` is what the loader would return on a
miss (`none` = loader error); `set k v` is `set_key`. -/
inductive CacheOp (V : Type) where
  | get (k : CKey) (loaded : Option V)
  | set (k : CKey) (v : V)

/-- State transition of `StoreCache` under one operation
(source: `common/cache.rs` lines 22-48). -/
def cacheStep {V : Type} (maxKeys : Nat) (st : List (CKey × V)) :
    CacheOp V → List (CKey × V)
  | .get k loaded =>
    match cacheLookup k st with
    | some _ => st
    | none =>
      match loaded with
      | none => st
      | some v => cacheEvict maxKeys (st ++ [(k, v)])
  | .set k v =>
    match cacheLookup k st with
    | some _ => cacheReplace k v st
    | none => cacheEvict maxKeys (st ++ [(k, v)])

/-- Run a sequence of cache operations from the empty cache. -/
def cacheRun {V : Type} (maxKeys : Nat) (ops : List (CacheOp V)) : List (CKey × V) :=
  ops.foldl (cacheStep maxKeys) []

/-! ### Key-state loader (source: `s3/cache.rs`, `S3CacheFetcher::load_key`) -/

/-- The fresh-key state returned on an empty listing
(source: `s3/cache.rs` lines 55-68). -/
def freshCachedKey : CachedKey :=
  { metadata := { next_offset := 1, next_nonce := 0 }
    uncompacted_objects := 0
    uncompacted_records := 0
    uncompacted_size := 0
    prior_start_offset := 0
    watermark := { offset := 0 } }

/-- `last_offset - first_offset + 1` (source: `s3/cache.rs` line 79). -/
def objectRecordsCount (k : KeyPath) : Nat :=
  k.last_offset - k.first_offset + 1

/-- The summarization loop of `load_key` (source: `s3/cache.rs` lines
76-93); `i` is the listing index, used only to exempt the first listed
object when it already holds a complete batch. -/
def loadKeyGo (threshold : Nat) : List KeyPath → Nat → CachedKey → CachedKey
  | [], _, acc => acc
  | k :: rest, i, acc =>
    let cnt := objectRecordsCount k
    let acc1 : CachedKey :=
      { acc with
        metadata := { next_offset := k.last_offset + 1, next_nonce := k.next_nonce }
        prior_start_offset := k.prior_start_offset }
    let acc2 : CachedKey :=
      if i = 0 ∧ cnt ≥ threshold then acc1
      else
        { acc1 with
          uncompacted_records := acc1.uncompacted_records + cnt
          uncompacted_size := acc1.uncompacted_size + k.size
          uncompacted_objects := acc1.uncompacted_objects + 1 }
    loadKeyGo threshold rest (i + 1) acc2

/-- `S3CacheFetcher::load_key` on an already-parsed listing
(source: `s3/cache.rs` lines 34-108): the object-store reads are
abstracted into the parsed path list `list` and the optional watermark
`wm`. -/
def load_key (threshold : Nat) (list : List KeyPath) (wm : Option Watermark) : CachedKey :=
  match list with
  | [] => freshCachedKey
  | k :: rest =>
    { loadKeyGo threshold (k :: rest) 0
        { metadata := { next_offset := 0, next_nonce := 0 }
          uncompacted_objects := 0
          uncompacted_records := 0
          uncompacted_size := 0
          prior_start_offset := 0
          watermark := { offset := 0 } } with
      watermark := wm.getD { offset := 0 } }

/-! ### Byte-level encodings -/

/-- Fixed-width little-endian byte encoding (models Rust `to_le_bytes`). -/
def toLEBytes : Nat → Nat → List Nat
  | 0, _ => []
  | w + 1, v => v % 256 :: toLEBytes w (v / 256)

/-- Value of a little-endian byte list (models Rust `from_le_bytes`). -/
def fromLEBytes : List Nat → Nat
  | [] => 0
  | b :: rest => b + 256 * fromLEBytes rest

/-- Zero-padded fixed-width base-10 ASCII rendering, most significant
digit first; models the Rust format specifier `{:0>20}` (with `w = 20`)
for values below `10 ^ w`, which covers all of `u64`. -/
def decPad : Nat → Nat → List Nat
  | 0, _ => []
  | w + 1, n => decPad w (n / 10) ++ [48 + n % 10]

/-- Unpadded base-10 ASCII rendering (models the Rust `{}` format for
unsigned integers). -/
def decBytes (n : Nat) : List Nat := (Nat.toDigits 10 n).map Char.toNat

/-- Base-10 ASCII rendering of a signed integer (models the Rust `{}`
format for `i64`): a leading `'-'` (byte 45) for negatives. -/
def intBytes (i : Int) : List Nat :=
  if i < 0 then 45 :: decBytes i.natAbs else decBytes i.natAbs

/-- ASCII bytes of a literal string fragment. -/
def strBytes (s : String) : List Nat := s.data.map Char.toNat

/-- `KeyPath::to_path` (source: `common/keypath.rs` lines 56-71), as the
byte string of the formatted object name. -/
def KeyPath.to_path (p : KeyPath) (rootPfx keyspace key : String) : List Nat :=
  strBytes rootPfx ++ strBytes keyspace ++ strBytes "/" ++ strBytes key ++
    strBytes "/data_o" ++ decPad 20 p.first_offset ++ strBytes "-o" ++ decBytes p.last_offset ++
    strBytes "_t" ++ intBytes p.min_timestamp ++ strBytes "-t" ++ intBytes p.max_timestamp ++
    strBytes "_n" ++ decBytes p.first_nonce ++ strBytes "-n" ++ decBytes p.next_nonce ++
    strBytes "_s" ++ decBytes p.size ++ strBytes "_p" ++ decBytes p.prior_start_offset ++
    strBytes ".bin"

/-- `Watermark::path` (source: `common/keypath.rs` lines 14-16). -/
def Watermark.path (rootPfx keyspace key : String) : List Nat :=
  strBytes rootPfx ++ strBytes keyspace ++ strBytes "/" ++ strBytes key ++
    strBytes "/watermark"

/-- `Watermark::serialize` (source: `common/keypath.rs` lines 21-25):
one little-endian u64. -/
def Watermark.serialize (w : Watermark) : List Nat := toLEBytes 8 (w.offset % 2 ^ 64)

/-- Strict byte-wise lexicographic comparison of byte strings (the order
an object store uses for LIST). -/
def lexLtB : List Nat → List Nat → Bool
  | [], [] => false
  | [], _ :: _ => true
  | _ :: _, [] => false
  | a :: as, b :: bs => if a < b then true else if a = b then lexLtB as bs else false

/-! ### Compaction merge (source: `s3/writer.rs`, `check_compaction`) -/

/-- One source object of a compaction merge: its listed object name,
its parsed `KeyPath` and its fetched body. -/
structure SrcObject where
  path : List Nat
  key : KeyPath
  body : List Nat
deriving DecidableEq, Repr

/-- The concatenated bodies of the merged objects in listed order
(source: `s3/writer.rs` lines 183-188). -/
def mergeBuffer (objs : List SrcObject) : List Nat :=
  (objs.map SrcObject.body).flatten

/-- The `KeyPath` of the merged object (source: `s3/writer.rs` lines
190-200): range from the first and last parsed sources, `min_timestamp`
from the FIRST source and `max_timestamp` from the LAST source,
nonces from first/last, size of the concatenation, `prior_start_offset`
from the first source. -/
def mergeKeyPath (first : SrcObject) (rest : List SrcObject) : KeyPath :=
  let firstKey := first.key
  let lastKey := ((first :: rest).getLast (List.cons_ne_nil _ _)).key
  { first_offset := firstKey.first_offset
    last_offset := lastKey.last_offset
    min_timestamp := firstKey.min_timestamp
    max_timestamp := lastKey.max_timestamp
    first_nonce := firstKey.first_nonce
    next_nonce := lastKey.next_nonce
    size := (mergeBuffer (first :: rest)).length
    prior_start_offset := firstKey.prior_start_offset }

/-- One object-store operation, for recording the order in which the
compaction merge path talks to the store. -/
inductive SOp where
  | get (path : List Nat)
  | put (path : List Nat) (body : List Nat)
  | delete (path : List Nat)
deriving DecidableEq, Repr

/-- The sequence of object-store operations issued by the merge path of
`check_compaction` (source: `s3/writer.rs` lines 183-219): GET each
source body, PUT the merged object, DELETE each source in order, then
PUT the new watermark when advancing. -/
def checkCompactionMergeTrace (rootPfx keyspace key : String)
    (first : SrcObject) (rest : List SrcObject) (advance_watermark : Bool) : List SOp :=
  ((first :: rest).map fun o => SOp.get o.path) ++
    [SOp.put ((mergeKeyPath first rest).to_path rootPfx keyspace key)
      (mergeBuffer (first :: rest))] ++
    ((first :: rest).map fun o => SOp.delete o.path) ++
    (if advance_watermark then
      [SOp.put (Watermark.path rootPfx keyspace key)
        (Watermark.serialize { offset := first.key.first_offset })]
     else [])

/-- Concrete merge inputs: the second listed object carries a smaller
minimum timestamp than the first, so the first source's `min_timestamp`
is not the envelope minimum. -/
def cexObjA : SrcObject :=
  { path := [97], key := ⟨1, 1, 5, 5, 0, 1, 40, 0⟩, body := [0] }

/-- Second concrete merge input (see `cexObjA`). -/
def cexObjB : SrcObject :=
  { path := [98], key := ⟨2, 2, 0, 0, 1, 2, 40, 1⟩, body := [1] }

/-! ### Reader paging and retry (source: `s3/reader.rs`, `s3/collect.rs`) -/

/-- A paging position (source: `s3/collect.rs`, `Position`). -/
structure Position where
  next_offset : Nat
  anchor_start_offset : Nat
deriving DecidableEq, Repr

/-- Outcome of one underlying collect attempt
(source: `s3/collect.rs`, `CollectOutcome`). -/
structure CollectOutcome where
  records : List Item
  position : Option Position
  requires_retry : Bool
deriving DecidableEq, Repr

/-- A page returned to the caller (source: `s3/reader.rs`, `Page`);
`continuation = none` is end of stream. -/
structure Page where
  records : List Item
  continuation : Option Position
deriving DecidableEq, Repr

/-- `S3StoreReader::read_first_page` (source: `s3/reader.rs` lines
100-153): the object-store-dependent collect call is abstracted into the
oracle `attempt` giving the outcome of the i-th collect invocation.
Returns the page together with the number of collect invocations made:
a single attempt, and a `requires_retry` outcome with no records is
turned directly into an empty page with no continuation. -/
def read_first_page (attempt : Nat → CollectOutcome) : Page × Nat :=
  let o := attempt 0
  if o.requires_retry = true ∧ o.records = [] then
    ({ records := o.records, continuation := none }, 1)
  else
    ({ records := o.records, continuation := o.position }, 1)

/-- `S3StoreReader::read_next_page` (source: `s3/reader.rs` lines
155-224): one retry after a `requires_retry` outcome with no records;
a second such outcome yields an empty page with no continuation. -/
def read_next_page (attempt : Nat → CollectOutcome) : Page × Nat :=
  let o1 := attempt 0
  if o1.requires_retry = true ∧ o1.records = [] then
    let o2 := attempt 1
    if o2.requires_retry = true ∧ o2.records = [] then
      ({ records := o2.records, continuation := none }, 2)
    else
      ({ records := o2.records, continuation := o2.position }, 2)
  else
    ({ records := o1.records, continuation := o1.position }, 1)

/-- A collect outcome that demands a retry and carries no records. -/
def retryEmptyOutcome : CollectOutcome :=
  { records := [], position := some ⟨1, 1⟩, requires_retry := true }

/-- A successful collect outcome with one record. -/
def successOutcome : CollectOutcome :=
  { records := [⟨1, 0, none, [7]⟩], position := some ⟨2, 1⟩, requires_retry := false }

/-- An oracle whose first attempt fails retryably and whose second
attempt would succeed. -/
def cexOracle : Nat → CollectOutcome
  | 0 => retryEmptyOutcome
  | _ + 1 => successOutcome

/-- An oracle that fails retryably with no records on every attempt. -/
def constRetryOracle : Nat → CollectOutcome := fun _ => retryEmptyOutcome

/-! ### Continuation parsing (source: `s3/collect.rs`) -/

/-- Split a character list at its first colon. -/
def splitAtColon : List Char → Option (List Char × List Char)
  | [] => none
  | c :: rest =>
    if c = ':' then some ([], rest)
    else
      match splitAtColon rest with
      | none => none
      | some (a, b) => some (c :: a, b)

/-- Decimal value of a digit run (models `str::parse` on an all-digit
string). -/
def digitsToNat (cs : List Char) : Nat :=
  cs.foldl (fun acc c => acc * 10 + (c.toNat - 48)) 0

/-- All characters are ASCII digits. -/
def allDigits (cs : List Char) : Bool :=
  cs.all fun c => decide (48 ≤ c.toNat) && decide (c.toNat ≤ 57)

/-- `ContinuationParser::parse` (source: `s3/collect.rs` lines 17-32):
the regex `^(\d+):(\d+)$` accepts two non-empty digit runs separated by
one colon; each run then goes through `parse::<u64>()`, which rejects
values above `u64::MAX`. -/
def continuationParse (cs : List Char) : Option Position :=
  match splitAtColon cs with
  | none => none
  | some (a, b) =>
    if a ≠ [] ∧ b ≠ [] ∧ allDigits a = true ∧ allDigits b = true ∧
        digitsToNat a ≤ u64Max ∧ digitsToNat b ≤ u64Max then
      some { next_offset := digitsToNat a, anchor_start_offset := digitsToNat b }
    else
      none

/-- `KeyPath::after_offset_prefix` (source: `common/keypath.rs` lines
97-114). -/
def after_offset_pfx (rootPfx keyspace key : String) (offset : Nat) : List Nat :=
  if offset = 0 then
    strBytes rootPfx ++ strBytes keyspace ++ strBytes "/" ++ strBytes key ++
      strBytes "/data_o"
  else
    strBytes rootPfx ++ strBytes keyspace ++ strBytes "/" ++ strBytes key ++
      strBytes "/data_o" ++ decPad 20 (offset + 1)

/-- `Position::get_start_from` (source: `s3/collect.rs` lines 47-51):
computes `after_offset_prefix` at `anchor_start_offset - 1`.  The u64
subtraction is modelled as checked: `none` means the subtraction
underflows (a panic in a debug build, a wrap to `u64::MAX` in release).
-/
def Position.get_start_from (p : Position) (rootPfx keyspace key : String) :
    Option (List Nat) :=
  if p.anchor_start_offset ≥ 1 then
    some (after_offset_pfx rootPfx keyspace key (p.anchor_start_offset - 1))
  else
    none

/-! ### Record codec (source: `common/items.rs`) -/

/-- `insertion_timestamp` (source: `common/time.rs` lines 4-12) with the
wall clock abstracted into the parameter `now`. -/
def insertionTimestamp (now : Int) (i : Insertion) : Int := i.timestamp.getD now

/-- Little-endian two's-complement encoding of an i64 value
(models `i64::to_le_bytes`). -/
def i64ToLEBytes (t : Int) : List Nat := toLEBytes 8 ((t % ((2 : Int) ^ 64)).toNat)

/-- Little-endian two's-complement decoding of an i64 value
(models `i64::from_le_bytes`). -/
def i64FromLEBytes (bs : List Nat) : Int :=
  if fromLEBytes bs < 2 ^ 63 then (fromLEBytes bs : Int)
  else (fromLEBytes bs : Int) - 2 ^ 64

/-- Result of `serialize_insertion`
(source: `common/items.rs`, `SerializedInsertion`). -/
structure SerializedInsertion where
  first_insert_offset : Nat
  last_insert_offset : Nat
  next_offset : Nat
  min_timestamp : Int
  max_timestamp : Int
  buffer : List Nat
deriving DecidableEq, Repr

/-- The per-record frame written by one iteration of
`serialize_insertion`'s loop (source: `common/items.rs` lines 20-35):
`u64 offset | i64 timestamp | u128 nonce-or-MAX | u32 value_len |
value | u32 (36 + value_len)`, all little-endian. -/
def serializeFrame (now : Int) (offset : Nat) (i : Insertion) : List Nat :=
  toLEBytes 8 (offset % 2 ^ 64) ++ i64ToLEBytes (insertionTimestamp now i) ++
    toLEBytes 16 ((i.nonce.getD u128Max) % 2 ^ 128) ++
    toLEBytes 4 (i.value.length % 2 ^ 32) ++ i.value ++
    toLEBytes 4 ((36 + i.value.length) % 2 ^ 32)

/-- The loop of `serialize_insertion`: walks the batch with the running
offset, min/max timestamp and buffer. -/
def serializeLoop (now : Int) :
    List Insertion → Nat → Int → Int → List Nat → (Nat × Int × Int × List Nat)
  | [], cur, mn, mx, buf => (cur, mn, mx, buf)
  | i :: rest, cur, mn, mx, buf =>
    serializeLoop now rest (cur + 1) (min mn (insertionTimestamp now i))
      (max mx (insertionTimestamp now i)) (buf ++ serializeFrame now cur i)

/-- `serialize_insertion` (source: `common/items.rs` lines 14-44). -/
def serialize_insertion (now : Int) (items : List Insertion) (next_offset : Nat) :
    SerializedInsertion :=
  let r := serializeLoop now items next_offset i64Max i64Min []
  { first_insert_offset := next_offset
    last_insert_offset := r.1 - 1
    next_offset := r.1
    min_timestamp := r.2.1
    max_timestamp := r.2.2.1
    buffer := r.2.2.2 }

/-- A parsed record header (source: `common/items.rs`, `ItemHeader`). -/
structure ItemHeader where
  offset : Nat
  timestamp : Int
  nonce : Option Nat
  length : Nat
deriving DecidableEq, Repr

/-- The sub-slice `buffer[pos..pos+len]`. -/
def listSub (buf : List Nat) (pos len : Nat) : List Nat := (buf.drop pos).take len

/-- `ItemHeader::deserialize` (source: `common/items.rs` lines 238-255);
`none` models the slice-bounds panic on a truncated buffer, and the
u128 all-ones sentinel decodes to an absent nonce. -/
def readHeader (buf : List Nat) (pos : Nat) : Option ItemHeader :=
  if pos + 36 ≤ buf.length then
    some
      { offset := fromLEBytes (listSub buf pos 8)
        timestamp := i64FromLEBytes (listSub buf (pos + 8) 8)
        nonce :=
          if fromLEBytes (listSub buf (pos + 16) 16) = u128Max then none
          else some (fromLEBytes (listSub buf (pos + 16) 16))
        length := fromLEBytes (listSub buf (pos + 32) 4) }
  else none

/-- `item_in_range` (source: `common/items.rs` lines 119-168). -/
def item_in_range (header : ItemHeader) (filter : DefaultedItemFilter)
    (found_first_match : Bool) : Bool :=
  match filter.order with
  | .Forwards =>
    if decide (header.offset < filter.start_offset) then false
    else if decide (header.timestamp < filter.start_timestamp) then false
    else
      match header.nonce with
      | none => if filter.nonce_defined && !found_first_match then false else true
      | some item_nonce =>
        if decide (item_nonce < filter.start_nonce) then false else true
  | .Backwards =>
    if decide (header.offset > filter.start_offset) then false
    else if decide (header.timestamp > filter.start_timestamp) then false
    else
      match header.nonce with
      | none => if filter.nonce_defined && !found_first_match then false else true
      | some item_nonce =>
        if decide (item_nonce > filter.start_nonce) then false else true

/-- The forward while loop of `deserialize_and_filter_items` (source:
`common/items.rs` lines 177-199), driven by a fuel argument that
strictly dominates the possible number of iterations (every iteration
advances `pos` by at least 40 bytes), so the fuel-exhaustion `none`
branch is unreachable from `deserialize_and_filter_items`. -/
def deserializeForwardGo (filter : DefaultedItemFilter) (continuation_offset : Nat)
    (buf : List Nat) : Nat → Nat → List Item → Option (List Item × Bool)
  | 0, _, _ => none
  | fuel + 1, pos, items =>
    if pos < buf.length ∧ items.length < filter.max_size then
      match readHeader buf pos with
      | none => none
      | some hd =>
        if decide (continuation_offset ≤ hd.offset)
            && item_in_range hd filter (!items.isEmpty) then
          if pos + 36 + hd.length ≤ buf.length then
            deserializeForwardGo filter continuation_offset buf fuel
              (pos + 36 + hd.length + 4)
              (items ++
                [{ offset := hd.offset, timestamp := hd.timestamp, nonce := hd.nonce,
                   value := listSub buf (pos + 36) hd.length }])
          else none
        else
          deserializeForwardGo filter continuation_offset buf fuel
            (pos + 36 + hd.length + 4) items
    else
      some (items, decide (pos = buf.length))

/-- `deserialize_and_filter_items` in the forward direction (source:
`common/items.rs` lines 170-199): returns the collected items and
whether the whole buffer was consumed. -/
def deserialize_and_filter_items (buf : List Nat) (filter : DefaultedItemFilter)
    (continuation_offset : Nat) : Option (List Item × Bool) :=
  deserializeForwardGo filter continuation_offset buf (buf.length + 1) 0 []

/-- The frames written for a batch starting at a given offset: the
buffer produced by `serialize_insertion` is exactly this concatenation.
-/
def framesFrom (now : Int) : Nat → List Insertion → List Nat
  | _, [] => []
  | off, i :: rest => serializeFrame now off i ++ framesFrom now (off + 1) rest

/-- The items a forward read of a serialized batch is expected to
return: sequential offsets from `off`, stamped timestamps, nonces as
supplied. -/
def expectedItems (now : Int) : Nat → List Insertion → List Item
  | _, [] => []
  | off, i :: rest =>
    { offset := off, timestamp := insertionTimestamp now i, nonce := i.nonce,
      value := i.value } :: expectedItems now (off + 1) rest

/-- A concrete two-record batch exercising both a present nonce and an
absent one. -/
def cexBatch : List Insertion :=
  [{ value := [10, 20], nonce := some 7, timestamp := some 100 },
   { value := [30], nonce := none, timestamp := none }]

end KLStore

namespace KLStore

lemma nonceWalk_go (records : List Insertion) :
    ∀ (fn : Option Nat) (n0 : Nat),
      NonceWalk n0 records (nonceFilterGo records fn n0).1 (nonceFilterGo records fn n0).2.2 := by
  induction records with
  | nil => intro fn n0; exact NonceWalk.nil n0
  | cons i rest ih =>
    intro fn n0
    cases hn : i.nonce with
    | none =>
      simp only [nonceFilterGo, hn]
      exact NonceWalk.keepNoNonce hn (ih fn n0)
    | some k =>
      by_cases hk : k ≥ n0
      · simp only [nonceFilterGo, hn, if_pos hk]
        cases fn with
        | none => exact NonceWalk.keepHigh hn hk (ih (some k) (k + 1))
        | some v => exact NonceWalk.keepHigh hn hk (ih (some v) (k + 1))
      · simp only [nonceFilterGo, hn, if_neg hk]
        exact NonceWalk.dropLow hn (Nat.lt_of_not_le hk) (ih fn n0)

/-- C1: the append-time nonce filter walks the input left to right with a
running next-nonce, keeping nonce-less records, dropping records whose
nonce is below the running next-nonce and keeping (while bumping the
running next-nonce to `n + 1`) records at or above it; consequently a
fresh-key append of two records both carrying nonce 5 keeps exactly the
first of them, and an append of a record with nonce 3 against
`next_nonce = 10` keeps nothing. -/
theorem nonce_filter_spec :
    (∀ (records : List Insertion) (n0 : Nat),
        NonceWalk n0 records (nonce_filter records n0).items (nonce_filter records n0).next_nonce) ∧
      (nonce_filter
            [⟨[1], some 5, none⟩, ⟨[2], some 5, none⟩] 0).items =
          [⟨[1], some 5, none⟩] ∧
      (nonce_filter [⟨[3], some 3, none⟩] 10).items = [] := by
  refine ⟨?_, by decide, by decide⟩
  intro records n0
  exact nonceWalk_go records none n0

/-- C4: for every `KeyPath` and every filter derived from a start
position, the forward match predicate is exactly
`start_offset ≤ last_offset ∧ start_nonce < next_nonce ∧
start_timestamp ≤ max_timestamp`, and the backward match predicate is
exactly `start_offset ≥ first_offset ∧ start_nonce ≥ first_nonce ∧
start_timestamp ≥ min_timestamp`. -/
theorem keypath_matches_spec :
    ∀ (p : KeyPath) (filter : Option ItemFilter) (ms : Nat),
      ((p.matches (DefaultedItemFilter.from filter ms .Forwards) = true) ↔
          ((DefaultedItemFilter.from filter ms .Forwards).start_offset ≤ p.last_offset ∧
            (DefaultedItemFilter.from filter ms .Forwards).start_nonce < p.next_nonce ∧
            (DefaultedItemFilter.from filter ms .Forwards).start_timestamp ≤ p.max_timestamp)) ∧
        ((p.matches (DefaultedItemFilter.from filter ms .Backwards) = true) ↔
          ((DefaultedItemFilter.from filter ms .Backwards).start_offset ≥ p.first_offset ∧
            (DefaultedItemFilter.from filter ms .Backwards).start_nonce ≥ p.first_nonce ∧
            (DefaultedItemFilter.from filter ms .Backwards).start_timestamp ≥ p.min_timestamp)) := by
  intro p filter ms
  constructor
  · cases filter <;>
      simp [KeyPath.matches, DefaultedItemFilter.from, and_assoc]
  · cases filter <;>
      simp [KeyPath.matches, DefaultedItemFilter.from, and_assoc]

lemma cacheStep_length_le {V : Type} (maxKeys : Nat) (st : List (CKey × V)) (op : CacheOp V)
    (h : st.length ≤ max maxKeys 1) :
    (cacheStep maxKeys st op).length ≤ max maxKeys 1 := by
  have hM1 : maxKeys ≤ max maxKeys 1 := Nat.le_max_left _ _
  have hM2 : 1 ≤ max maxKeys 1 := Nat.le_max_right _ _
  have hevict : ∀ (k : CKey) (v : V),
      (cacheEvict maxKeys (st ++ [(k, v)])).length ≤ max maxKeys 1 := by
    intro k v
    unfold cacheEvict
    by_cases hc : (st ++ [(k, v)]).length > maxKeys ∧ (st ++ [(k, v)]).length > 1
    · rw [if_pos hc]
      simp only [List.length_drop, List.length_append, List.length_cons, List.length_nil]
      omega
    · rw [if_neg hc]
      simp only [List.length_append, List.length_cons, List.length_nil] at hc ⊢
      omega
  cases op with
  | get k loaded =>
    simp only [cacheStep]
    split
    · exact h
    · cases loaded with
      | none => exact h
      | some v => exact hevict k v
  | set k v =>
    simp only [cacheStep]
    split
    · simpa [cacheReplace] using h
    · exact hevict k v

lemma cacheRun_go {V : Type} (maxKeys : Nat) (ops : List (CacheOp V)) :
    ∀ st : List (CKey × V), st.length ≤ max maxKeys 1 →
      (ops.foldl (cacheStep maxKeys) st).length ≤ max maxKeys 1 := by
  induction ops with
  | nil => intro st h; exact h
  | cons op rest ih =>
    intro st h
    exact ih _ (cacheStep_length_le maxKeys st op h)

/-- C9: starting from an empty key-state cache, after any sequence of
`get_or_read_key` and `set_key` operations the number of cached entries
never exceeds `max(max_cached_keys, 1)`; eviction fires only when the
size strictly exceeds both `max_cached_keys` and 1, and removes the
front (oldest) entry, as embodied in `cacheEvict`. -/
theorem cache_size_bound (V : Type) (maxKeys : Nat) (ops : List (CacheOp V)) :
    (cacheRun maxKeys ops).length ≤ max maxKeys 1 := by
  exact cacheRun_go maxKeys ops [] (by simp)

lemma loadKeyGo_counts (threshold : Nat) (rest : List KeyPath) :
    ∀ (i : Nat) (acc : CachedKey),
      (loadKeyGo threshold rest (i + 1) acc).uncompacted_records
          = acc.uncompacted_records + (rest.map objectRecordsCount).sum ∧
        (loadKeyGo threshold rest (i + 1) acc).uncompacted_size
          = acc.uncompacted_size + (rest.map KeyPath.size).sum ∧
        (loadKeyGo threshold rest (i + 1) acc).uncompacted_objects
          = acc.uncompacted_objects + rest.length := by
  induction rest with
  | nil => intro i acc; simp [loadKeyGo]
  | cons k rs ih =>
    intro i acc
    simp only [loadKeyGo]
    rw [if_neg (fun hc => Nat.succ_ne_zero i hc.1)]
    refine ⟨?_, ?_, ?_⟩
    · rw [(ih (i + 1) _).1]
      simp [Nat.add_assoc, Nat.add_comm, Nat.add_left_comm]
    · rw [(ih (i + 1) _).2.1]
      simp [Nat.add_assoc, Nat.add_comm, Nat.add_left_comm]
    · rw [(ih (i + 1) _).2.2]
      simp [Nat.add_assoc, Nat.add_comm, Nat.add_left_comm]

/-- C7: on a non-empty listing the loader excludes the first listed
object from all three uncompacted counters precisely when its record
count `last_offset - first_offset + 1` meets the complete-batch
threshold, includes every later object, and on an empty listing returns
a fresh state with `next_offset = 1` and `next_nonce = 0`. -/
theorem load_key_spec :
    ∀ (threshold : Nat) (wm : Option Watermark) (k : KeyPath) (rest : List KeyPath),
      ((load_key threshold (k :: rest) wm).uncompacted_records
          = (if objectRecordsCount k ≥ threshold then 0 else objectRecordsCount k)
            + (rest.map objectRecordsCount).sum) ∧
        ((load_key threshold (k :: rest) wm).uncompacted_size
          = (if objectRecordsCount k ≥ threshold then 0 else k.size)
            + (rest.map KeyPath.size).sum) ∧
        ((load_key threshold (k :: rest) wm).uncompacted_objects
          = (if objectRecordsCount k ≥ threshold then 0 else 1) + rest.length) ∧
        (load_key threshold [] wm).metadata.next_offset = 1 ∧
        (load_key threshold [] wm).metadata.next_nonce = 0 := by
  intro threshold wm k rest
  have hc := loadKeyGo_counts threshold rest 0
  refine ⟨?_, ?_, ?_, rfl, rfl⟩
  · simp only [load_key, loadKeyGo]
    by_cases hskip : objectRecordsCount k ≥ threshold
    · rw [if_pos ⟨by trivial, hskip⟩, if_pos hskip, (hc _).1]
    · rw [if_neg (fun hc2 => hskip hc2.2), if_neg hskip, (hc _).1]
      try simp
  · simp only [load_key, loadKeyGo]
    by_cases hskip : objectRecordsCount k ≥ threshold
    · rw [if_pos ⟨by trivial, hskip⟩, if_pos hskip, (hc _).2.1]
    · rw [if_neg (fun hc2 => hskip hc2.2), if_neg hskip, (hc _).2.1]
      try simp
  · simp only [load_key, loadKeyGo]
    by_cases hskip : objectRecordsCount k ≥ threshold
    · rw [if_pos ⟨by trivial, hskip⟩, if_pos hskip, (hc _).2.2]
    · rw [if_neg (fun hc2 => hskip hc2.2), if_neg hskip, (hc _).2.2]
      try simp

/-- C3 counterexample: merging `cexObjA` (min timestamp 5) with
`cexObjB` (min timestamp 0) records `min_timestamp = 5`, which is not
the minimum over the merged objects' min timestamps. -/
theorem merge_min_timestamp_counterexample :
    (mergeKeyPath cexObjA [cexObjB]).min_timestamp ≠
      min cexObjA.key.min_timestamp cexObjB.key.min_timestamp := by
  decide

/-- C3 (amended): the merged object's key path takes `first_offset`,
`first_nonce` and `prior_start_offset` from the first listed source,
`last_offset`, `next_nonce` and `max_timestamp` from the last listed
source, `min_timestamp` from the FIRST source (not the envelope
minimum), and `size` equal to the total length of the source bodies;
the merged body is the concatenation of the source bodies in listed
order. -/
theorem merge_keypath_spec (first : SrcObject) (rest : List SrcObject) (_h : rest ≠ []) :
    (mergeKeyPath first rest).first_offset = first.key.first_offset ∧
      (mergeKeyPath first rest).last_offset
        = (((first :: rest).getLast (List.cons_ne_nil _ _)).key).last_offset ∧
      (mergeKeyPath first rest).min_timestamp = first.key.min_timestamp ∧
      (mergeKeyPath first rest).max_timestamp
        = (((first :: rest).getLast (List.cons_ne_nil _ _)).key).max_timestamp ∧
      (mergeKeyPath first rest).first_nonce = first.key.first_nonce ∧
      (mergeKeyPath first rest).next_nonce
        = (((first :: rest).getLast (List.cons_ne_nil _ _)).key).next_nonce ∧
      (mergeKeyPath first rest).size
        = ((first :: rest).map (fun o => o.body.length)).sum ∧
      (mergeKeyPath first rest).prior_start_offset = first.key.prior_start_offset ∧
      mergeBuffer (first :: rest) = ((first :: rest).map SrcObject.body).flatten := by
  refine ⟨rfl, rfl, rfl, rfl, rfl, rfl, ?_, rfl, rfl⟩
  simp only [mergeKeyPath, mergeBuffer, List.length_flatten, List.map_map]
  rfl

/-- Closed instance of `merge_keypath_spec` at the two concrete source
objects. -/
theorem merge_keypath_spec_witness :
    (mergeKeyPath cexObjA [cexObjB]).first_offset = cexObjA.key.first_offset ∧
      (mergeKeyPath cexObjA [cexObjB]).last_offset
        = (((cexObjA :: [cexObjB]).getLast (List.cons_ne_nil _ _)).key).last_offset ∧
      (mergeKeyPath cexObjA [cexObjB]).min_timestamp = cexObjA.key.min_timestamp ∧
      (mergeKeyPath cexObjA [cexObjB]).max_timestamp
        = (((cexObjA :: [cexObjB]).getLast (List.cons_ne_nil _ _)).key).max_timestamp ∧
      (mergeKeyPath cexObjA [cexObjB]).first_nonce = cexObjA.key.first_nonce ∧
      (mergeKeyPath cexObjA [cexObjB]).next_nonce
        = (((cexObjA :: [cexObjB]).getLast (List.cons_ne_nil _ _)).key).next_nonce ∧
      (mergeKeyPath cexObjA [cexObjB]).size
        = ((cexObjA :: [cexObjB]).map (fun o => o.body.length)).sum ∧
      (mergeKeyPath cexObjA [cexObjB]).prior_start_offset = cexObjA.key.prior_start_offset ∧
      mergeBuffer (cexObjA :: [cexObjB]) = ((cexObjA :: [cexObjB]).map SrcObject.body).flatten :=
  merge_keypath_spec cexObjA [cexObjB] (by simp)

/-- C8: in the merge path's object-store trace, the PUT of the merged
object sits at index `n` (after the `n` source GETs, where `n` is the
number of merged objects) and every DELETE occurs strictly later. -/
theorem compaction_put_before_deletes (rp ks key : String) (first : SrcObject)
    (rest : List SrcObject) (advance : Bool) (_h : rest ≠ []) :
    (checkCompactionMergeTrace rp ks key first rest advance)[(first :: rest).length]?
        = some (SOp.put ((mergeKeyPath first rest).to_path rp ks key)
            (mergeBuffer (first :: rest))) ∧
      ∀ (j : Nat) (p : List Nat),
        (checkCompactionMergeTrace rp ks key first rest advance)[j]? = some (SOp.delete p) →
          (first :: rest).length < j := by
  constructor
  · simp only [checkCompactionMergeTrace, List.append_assoc]
    rw [List.getElem?_append_right (by simp)]
    simp
  · intro j p hj
    by_contra hle
    push_neg at hle
    rcases Nat.lt_or_ge j (first :: rest).length with hlt | hge
    · simp only [checkCompactionMergeTrace, List.append_assoc] at hj
      rw [List.getElem?_append_left (by simpa using hlt)] at hj
      cases j with
      | zero => simp at hj
      | succ j2 =>
        rw [List.map_cons, List.getElem?_cons_succ, List.getElem?_map] at hj
        cases h2 : rest[j2]? with
        | none => rw [h2] at hj; simp at hj
        | some o => rw [h2] at hj; simp at hj
    · have hj2 : j = (first :: rest).length := Nat.le_antisymm hle hge
      subst hj2
      simp only [checkCompactionMergeTrace, List.append_assoc] at hj
      rw [List.getElem?_append_right (by simp)] at hj
      simp at hj

/-- C5 counterexample: on an oracle whose first collect attempt demands
a retry with no records and whose second attempt would succeed,
`read_first_page` makes exactly one collect attempt — it never retries —
and returns an empty page, so it is not the case that every paging read
returning `requires_retry` with no records is retried once. -/
theorem read_first_page_no_retry_counterexample :
    (read_first_page cexOracle).2 = 1 ∧
      (read_first_page cexOracle).1.records = [] ∧
      (read_first_page cexOracle).1.continuation = none ∧
      (cexOracle 0).requires_retry = true ∧
      (cexOracle 0).records = [] ∧
      (cexOracle 1).requires_retry = false ∧
      (cexOracle 1).records ≠ [] := by
  decide

/-- C5 (amended): `read_next_page` retries exactly once after a
requires-retry outcome with no records — two collect attempts, never a
third — and when the retry also comes back requires-retry with no
records it returns a page with no records and no continuation;
`read_first_page`, by contrast, never retries: it makes one collect
attempt and maps such an outcome directly to an empty page with no
continuation. -/
theorem reader_retry_spec (attempt : Nat → CollectOutcome)
    (h1 : (attempt 0).requires_retry = true) (h2 : (attempt 0).records = []) :
    (read_next_page attempt).2 = 2 ∧
      ((attempt 1).requires_retry = true → (attempt 1).records = [] →
        (read_next_page attempt).1.records = [] ∧
          (read_next_page attempt).1.continuation = none) ∧
      (read_first_page attempt).2 = 1 ∧
      (read_first_page attempt).1.records = [] ∧
      (read_first_page attempt).1.continuation = none := by
  have hcond : ((attempt 0).requires_retry = true ∧ (attempt 0).records = []) := ⟨h1, h2⟩
  refine ⟨?_, ?_, ?_, ?_, ?_⟩
  · simp only [read_next_page, if_pos hcond]
    split <;> rfl
  · intro h3 h4
    have hcond2 : ((attempt 1).requires_retry = true ∧ (attempt 1).records = []) := ⟨h3, h4⟩
    simp only [read_next_page, if_pos hcond, if_pos hcond2]
    exact ⟨h4, trivial⟩
  · simp only [read_first_page, if_pos hcond]
  · simp only [read_first_page, if_pos hcond]
    exact h2
  · simp only [read_first_page, if_pos hcond]

/-- Closed instance of `reader_retry_spec` on an oracle that fails both
attempts. -/
theorem reader_retry_spec_witness :
    (read_next_page constRetryOracle).2 = 2 ∧
      ((constRetryOracle 1).requires_retry = true → (constRetryOracle 1).records = [] →
        (read_next_page constRetryOracle).1.records = [] ∧
          (read_next_page constRetryOracle).1.continuation = none) ∧
      (read_first_page constRetryOracle).2 = 1 ∧
      (read_first_page constRetryOracle).1.records = [] ∧
      (read_first_page constRetryOracle).1.continuation = none :=
  reader_retry_spec constRetryOracle rfl rfl

lemma lexLtB_append_same (c x y : List Nat) :
    lexLtB (c ++ x) (c ++ y) = lexLtB x y := by
  induction c with
  | nil => rfl
  | cons a as ih => simp [lexLtB, ih]

lemma decPad_lt : ∀ (w m n : Nat) (xs ys : List Nat), m < n → n < 10 ^ w →
    lexLtB (decPad w m ++ xs) (decPad w n ++ ys) = true := by
  intro w
  induction w with
  | zero =>
    intro m n xs ys hmn hn
    simp at hn
    omega
  | succ w ih =>
    intro m n xs ys hmn hn
    have hdivle : m / 10 ≤ n / 10 := Nat.div_le_div_right (Nat.le_of_lt hmn)
    have hn10 : n / 10 < 10 ^ w := by
      rw [Nat.div_lt_iff_lt_mul (by norm_num)]
      calc n < 10 ^ (w + 1) := hn
        _ = 10 ^ w * 10 := by rw [pow_succ]
    rcases Nat.lt_or_ge (m / 10) (n / 10) with hlt | hge
    · simp only [decPad, List.append_assoc]
      exact ih (m / 10) (n / 10) _ _ hlt hn10
    · have heq : m / 10 = n / 10 := Nat.le_antisymm hdivle hge
      have hmod : m % 10 < n % 10 := by
        have hd1 := Nat.div_add_mod m 10
        have hd2 := Nat.div_add_mod n 10
        omega
      have hhead : 48 + m % 10 < 48 + n % 10 := by omega
      simp only [decPad, List.append_assoc, heq]
      rw [lexLtB_append_same]
      simp [lexLtB, hhead]

/-- C6: for two data objects of the same keyspace and key, a strictly
smaller `first_offset` gives a byte-wise lexicographically smaller
encoded object name, because the leading offset is zero-padded to 20
decimal digits and every u64 fits in 20 digits; hence LIST order on the
`data_` prefix is ascending-offset order. -/
theorem to_path_lex_order (rp ks key : String) (p q : KeyPath)
    (h1 : p.first_offset < q.first_offset) (h2 : q.first_offset < 2 ^ 64) :
    lexLtB (p.to_path rp ks key) (q.to_path rp ks key) = true := by
  have h3 : q.first_offset < 10 ^ 20 := lt_trans h2 (by norm_num)
  simp only [KeyPath.to_path, List.append_assoc]
  rw [lexLtB_append_same, lexLtB_append_same, lexLtB_append_same, lexLtB_append_same,
    lexLtB_append_same]
  exact decPad_lt 20 _ _ _ _ h1 h3

/-- Closed instance of `to_path_lex_order` at two concrete key paths
with first offsets 1 and 2. -/
theorem to_path_lex_order_witness :
    cexObjA.key.first_offset < cexObjB.key.first_offset ∧
      cexObjB.key.first_offset < 2 ^ 64 ∧
      lexLtB (cexObjA.key.to_path "p" "ks" "k") (cexObjB.key.to_path "p" "ks" "k") = true :=
  ⟨by decide, by decide,
    to_path_lex_order "p" "ks" "k" cexObjA.key cexObjB.key (by decide) (by decide)⟩

/-- C10: the continuation parser accepts the string `"5:0"`, producing
`anchor_start_offset = 0`, and on that position the u64 subtraction
`anchor_start_offset - 1` inside `get_start_from` underflows — against
the accompanying code comment that the anchor "defaults to 1, so -1
does not need safety checking". -/
theorem continuation_parse_accepts_zero_anchor :
    continuationParse ("5:0".data) = some ⟨5, 0⟩ ∧
      (Position.mk 5 0).get_start_from "p" "ks" "k" = none := by
  decide

lemma toLEBytes_length (w : Nat) : ∀ v, (toLEBytes w v).length = w := by
  induction w with
  | zero => intro v; rfl
  | succ w ih => intro v; simp [toLEBytes, ih]

lemma fromLEBytes_toLEBytes (w : Nat) : ∀ v, fromLEBytes (toLEBytes w v) = v % 256 ^ w := by
  induction w with
  | zero => intro v; simp [toLEBytes, fromLEBytes, Nat.mod_one]
  | succ w ih =>
    intro v
    simp only [toLEBytes, fromLEBytes, ih]
    rw [pow_succ' 256 w, Nat.mod_mul]

lemma listSub_front (buf x y : List Nat) (pos n : Nat)
    (hbuf : buf.drop pos = x ++ y) (hx : x.length = n) : listSub buf pos n = x := by
  unfold listSub
  rw [hbuf, ← hx, List.take_left]

lemma drop_chain (buf x y : List Nat) (pos k : Nat)
    (hbuf : buf.drop pos = x ++ y) (hx : x.length = k) : buf.drop (pos + k) = y := by
  rw [← List.drop_drop, hbuf, ← hx, List.drop_left]

lemma i64_roundtrip (t : Int) (h1 : i64Min ≤ t) (h2 : t ≤ i64Max) :
    i64FromLEBytes (i64ToLEBytes t) = t := by
  unfold i64FromLEBytes i64ToLEBytes
  rw [fromLEBytes_toLEBytes]
  have e1 : ((2 : Int) ^ 64) = 18446744073709551616 := by norm_num
  have e2 : ((2 : Nat) ^ 64) = 18446744073709551616 := by norm_num
  have e3 : ((2 : Nat) ^ 63) = 9223372036854775808 := by norm_num
  have e6 : ((256 : Nat) ^ 8) = 18446744073709551616 := by norm_num
  rw [i64Min] at h1
  rw [i64Max] at h2
  rw [e1, e6]
  rw [e3]
  norm_num at h1 h2
  split <;> omega

lemma framesFrom_length_ge (now : Int) (B : List Insertion) :
    ∀ off, B.length ≤ (framesFrom now off B).length := by
  induction B with
  | nil => intro off; simp [framesFrom]
  | cons i rest ih =>
    intro off
    simp only [framesFrom, List.length_append, List.length_cons]
    have h1 : 1 ≤ (serializeFrame now off i).length := by
      simp [serializeFrame, toLEBytes_length, i64ToLEBytes]
      omega
    have h2 := ih (off + 1)
    omega

lemma serializeLoop_buffer (now : Int) (B : List Insertion) :
    ∀ cur mn mx buf, (serializeLoop now B cur mn mx buf).2.2.2 = buf ++ framesFrom now cur B := by
  induction B with
  | nil => intro cur mn mx buf; simp [serializeLoop, framesFrom]
  | cons i rest ih =>
    intro cur mn mx buf
    simp only [serializeLoop, framesFrom, ih, List.append_assoc]

lemma serialize_insertion_buffer (now : Int) (B : List Insertion) (off : Nat) :
    (serialize_insertion now B off).buffer = framesFrom now off B := by
  simp [serialize_insertion, serializeLoop_buffer]

lemma serializeFrame_length (now : Int) (off : Nat) (i : Insertion) :
    (serializeFrame now off i).length = 40 + i.value.length := by
  simp [serializeFrame, toLEBytes_length, i64ToLEBytes]
  omega

lemma item_in_range_undef_forward (hd : ItemHeader) (ms : Nat) (ffm : Bool)
    (hts : i64Min ≤ hd.timestamp) :
    item_in_range hd (DefaultedItemFilter.from none ms .Forwards) ffm = true := by
  simp only [item_in_range, DefaultedItemFilter.from]
  rw [if_neg (by simp)]
  rw [if_neg (by simp only [decide_eq_true_eq]; exact not_lt.mpr hts)]
  cases hn : hd.nonce with
  | none => simp
  | some v => simp

lemma readHeader_frame (now : Int) (i : Insertion) (buf : List Nat) (pos off : Nat)
    (rest2 : List Nat)
    (hdrop : buf.drop pos = serializeFrame now off i ++ rest2)
    (hoff : off < 2 ^ 64)
    (hval : i.value.length < 2 ^ 32)
    (hnon : ∀ n, i.nonce = some n → n < u128Max)
    (hts1 : i64Min ≤ insertionTimestamp now i) (hts2 : insertionTimestamp now i ≤ i64Max) :
    readHeader buf pos = some
      { offset := off, timestamp := insertionTimestamp now i, nonce := i.nonce,
        length := i.value.length } ∧
      listSub buf (pos + 36) i.value.length = i.value ∧
      buf.length = pos + 40 + i.value.length + rest2.length := by
  have hdrop2 : buf.drop pos
      = toLEBytes 8 (off % 2 ^ 64) ++
          (i64ToLEBytes (insertionTimestamp now i) ++
            (toLEBytes 16 ((i.nonce.getD u128Max) % 2 ^ 128) ++
              (toLEBytes 4 (i.value.length % 2 ^ 32) ++
                (i.value ++
                  (toLEBytes 4 ((36 + i.value.length) % 2 ^ 32) ++ rest2))))) := by
    simpa [serializeFrame, List.append_assoc] using hdrop
  have ht8len : (i64ToLEBytes (insertionTimestamp now i)).length = 8 := by
    simp [i64ToLEBytes, toLEBytes_length]
  have s_off : listSub buf pos 8 = toLEBytes 8 (off % 2 ^ 64) :=
    listSub_front _ _ _ _ _ hdrop2 (toLEBytes_length 8 _)
  have d8 := drop_chain _ _ _ _ _ hdrop2 (toLEBytes_length 8 _)
  have s_ts : listSub buf (pos + 8) 8 = i64ToLEBytes (insertionTimestamp now i) :=
    listSub_front _ _ _ _ _ d8 ht8len
  have d16 := drop_chain _ _ _ _ _ d8 ht8len
  have d16b : buf.drop (pos + 16)
      = toLEBytes 16 ((i.nonce.getD u128Max) % 2 ^ 128) ++
          (toLEBytes 4 (i.value.length % 2 ^ 32) ++
            (i.value ++ (toLEBytes 4 ((36 + i.value.length) % 2 ^ 32) ++ rest2))) := by
    rw [show pos + 16 = pos + 8 + 8 by omega]
    exact d16
  have s_n : listSub buf (pos + 16) 16 = toLEBytes 16 ((i.nonce.getD u128Max) % 2 ^ 128) :=
    listSub_front _ _ _ _ _ d16b (toLEBytes_length 16 _)
  have d32 := drop_chain _ _ _ _ _ d16b (toLEBytes_length 16 _)
  have d32b : buf.drop (pos + 32)
      = toLEBytes 4 (i.value.length % 2 ^ 32) ++
          (i.value ++ (toLEBytes 4 ((36 + i.value.length) % 2 ^ 32) ++ rest2)) := by
    rw [show pos + 32 = pos + 16 + 16 by omega]
    exact d32
  have s_l : listSub buf (pos + 32) 4 = toLEBytes 4 (i.value.length % 2 ^ 32) :=
    listSub_front _ _ _ _ _ d32b (toLEBytes_length 4 _)
  have d36 := drop_chain _ _ _ _ _ d32b (toLEBytes_length 4 _)
  have d36b : buf.drop (pos + 36)
      = i.value ++ (toLEBytes 4 ((36 + i.value.length) % 2 ^ 32) ++ rest2) := by
    rw [show pos + 36 = pos + 32 + 4 by omega]
    exact d36
  have s_v : listSub buf (pos + 36) i.value.length = i.value :=
    listSub_front _ _ _ _ _ d36b rfl
  have hdlen : (buf.drop pos).length = 40 + i.value.length + rest2.length := by
    rw [hdrop2]
    simp [toLEBytes_length, ht8len]
    omega
  have hlen : buf.length = pos + 40 + i.value.length + rest2.length := by
    have h2 := List.length_drop pos buf
    rw [hdlen] at h2
    omega
  refine ⟨?_, s_v, hlen⟩
  have hb36 : pos + 36 ≤ buf.length := by omega
  have e8 : (256 : Nat) ^ 8 = 2 ^ 64 := by norm_num
  have e16 : (256 : Nat) ^ 16 = 2 ^ 128 := by norm_num
  have e4 : (256 : Nat) ^ 4 = 2 ^ 32 := by norm_num
  have hgd : i.nonce.getD u128Max < 2 ^ 128 := by
    cases hcc : i.nonce with
    | none =>
      simp only [Option.getD, u128Max]
      decide
    | some n =>
      have h3 := hnon n hcc
      have h4 : u128Max < 2 ^ 128 := by
        simp only [u128Max]
        decide
      simp only [Option.getD]
      omega
  have hoo : off % 2 ^ 64 % 256 ^ 8 = off := by
    rw [e8]
    omega
  have hll : i.value.length % 2 ^ 32 % 256 ^ 4 = i.value.length := by
    rw [e4]
    omega
  have hnn : i.nonce.getD u128Max % 2 ^ 128 % 256 ^ 16 = i.nonce.getD u128Max := by
    rw [e16]
    omega
  have hnf : (if i.nonce.getD u128Max = u128Max then (none : Option Nat)
      else some (i.nonce.getD u128Max)) = i.nonce := by
    cases hcc : i.nonce with
    | none => simp
    | some n =>
      have h3 := hnon n hcc
      simp only [Option.getD]
      rw [if_neg (by omega)]
  unfold readHeader
  rw [if_pos hb36, s_off, s_ts, s_n, s_l,
    fromLEBytes_toLEBytes, fromLEBytes_toLEBytes, fromLEBytes_toLEBytes,
    i64_roundtrip _ hts1 hts2, hoo, hll, hnn, hnf]

lemma deserialize_frames (now : Int) (B : List Insertion) :
    ∀ (off : Nat) (pre : List Nat) (acc : List Item) (fuel : Nat),
      (∀ i ∈ B, i.value.length < 2 ^ 32) →
      (∀ i ∈ B, ∀ n, i.nonce = some n → n < u128Max) →
      (∀ i ∈ B, i64Min ≤ insertionTimestamp now i ∧ insertionTimestamp now i ≤ i64Max) →
      off + B.length ≤ 2 ^ 64 →
      acc.length + B.length ≤ u64Max →
      B.length + 1 ≤ fuel →
      deserializeForwardGo (DefaultedItemFilter.from none u64Max .Forwards) 0
          (pre ++ framesFrom now off B) fuel pre.length acc
        = some (acc ++ expectedItems now off B, true) := by
  induction B with
  | nil =>
    intro off pre acc fuel _ _ _ _ _ hfuel
    obtain ⟨f, rfl⟩ : ∃ f, fuel = f + 1 := ⟨fuel - 1, by omega⟩
    simp [deserializeForwardGo, framesFrom, expectedItems]
  | cons i rest ih =>
    intro off pre acc fuel hval hnon hts hfit hmax hfuel
    obtain ⟨f, rfl⟩ : ∃ f, fuel = f + 1 := ⟨fuel - 1, by omega⟩
    have hvi : i.value.length < 2 ^ 32 := hval i (List.mem_cons_self i rest)
    have hni : ∀ n, i.nonce = some n → n < u128Max :=
      fun n h => hnon i (List.mem_cons_self i rest) n h
    have htsi := hts i (List.mem_cons_self i rest)
    have hofflt : off < 2 ^ 64 := by
      simp only [List.length_cons] at hfit
      omega
    have hbufeq : pre ++ framesFrom now off (i :: rest)
        = pre ++ (serializeFrame now off i ++ framesFrom now (off + 1) rest) := by
      simp [framesFrom]
    have hdrop : (pre ++ framesFrom now off (i :: rest)).drop pre.length
        = serializeFrame now off i ++ framesFrom now (off + 1) rest := by
      rw [hbufeq, List.drop_left]
    obtain ⟨hH, hslice, hlen⟩ :=
      readHeader_frame now i _ pre.length off _ hdrop hofflt hvi hni htsi.1 htsi.2
    have hc1 : pre.length < (pre ++ framesFrom now off (i :: rest)).length := by
      omega
    have hc2 : acc.length
        < (DefaultedItemFilter.from none u64Max IterationOrder.Forwards).max_size := by
      simp only [DefaultedItemFilter.from]
      simp only [List.length_cons] at hmax
      omega
    have haccept : (decide (0 ≤ off) && item_in_range
        { offset := off, timestamp := insertionTimestamp now i, nonce := i.nonce,
          length := i.value.length }
        (DefaultedItemFilter.from none u64Max IterationOrder.Forwards)
        (!acc.isEmpty)) = true := by
      rw [item_in_range_undef_forward _ _ _ htsi.1]
      simp
    have hbound : pre.length + 36 + i.value.length
        ≤ (pre ++ framesFrom now off (i :: rest)).length := by
      omega
    simp only [deserializeForwardGo]
    rw [if_pos ⟨hc1, hc2⟩]
    simp only [hH]
    rw [if_pos (by rw [haccept])]
    rw [if_pos hbound]
    rw [hslice]
    have hidx : pre.length + 36 + i.value.length + 4
        = (pre ++ serializeFrame now off i).length := by
      simp only [List.length_append, serializeFrame_length]
      omega
    rw [hidx, hbufeq, ← List.append_assoc]
    have hrec := ih (off + 1) (pre ++ serializeFrame now off i)
      (acc ++ [{ offset := off, timestamp := insertionTimestamp now i, nonce := i.nonce,
                 value := i.value }]) f
      (fun j hj => hval j (List.mem_cons_of_mem i hj))
      (fun j hj => hnon j (List.mem_cons_of_mem i hj))
      (fun j hj => hts j (List.mem_cons_of_mem i hj))
      (by simp only [List.length_cons] at hfit; omega)
      (by simp only [List.length_cons] at hmax; simp; omega)
      (by simp only [List.length_cons] at hfuel; omega)
    rw [hrec]
    simp [expectedItems]

/-- C2: round-trip of the record codec.  For every non-empty batch and
every starting offset at least 1 (such that the offsets fit in u64, the
value lengths fit in u32 and the supplied nonces lie below the u128
sentinel), forward deserialization of the serialized buffer with an
undefined filter, unlimited `max_size` and continuation offset 0
returns exactly the batch in order with sequential offsets from
`next_offset`, timestamps and nonces preserved, and reports the buffer
fully consumed. -/
theorem serialize_roundtrip (now : Int) (B : List Insertion) (off : Nat)
    (_hne : B ≠ []) (hoff : 1 ≤ off)
    (hfit : off + B.length ≤ 2 ^ 64)
    (hval : ∀ i ∈ B, i.value.length < 2 ^ 32)
    (hnon : ∀ i ∈ B, i.nonce.getD 0 < u128Max)
    (hts : ∀ i ∈ B, i64Min ≤ insertionTimestamp now i ∧ insertionTimestamp now i ≤ i64Max) :
    deserialize_and_filter_items (serialize_insertion now B off).buffer
        (DefaultedItemFilter.from none u64Max .Forwards) 0
      = some (expectedItems now off B, true) := by
  have hnon2 : ∀ i ∈ B, ∀ n, i.nonce = some n → n < u128Max := by
    intro i hi n hn
    have h2 := hnon i hi
    rw [hn] at h2
    simpa using h2
  have humax : u64Max = 2 ^ 64 - 1 := rfl
  have hfg := framesFrom_length_ge now B off
  have h := deserialize_frames now B off [] [] ((framesFrom now off B).length + 1)
    hval hnon2 hts hfit
    (by simp only [List.length_nil]; omega)
    (by omega)
  unfold deserialize_and_filter_items
  rw [serialize_insertion_buffer]
  simpa using h

/-- Closed instance of `serialize_roundtrip` on a concrete two-record
batch at starting offset 1. -/
theorem serialize_roundtrip_witness :
    deserialize_and_filter_items (serialize_insertion 42 cexBatch 1).buffer
        (DefaultedItemFilter.from none u64Max .Forwards) 0
      = some (expectedItems 42 1 cexBatch, true) :=
  serialize_roundtrip 42 cexBatch 1 (by decide) (by decide) (by decide)
    (by decide) (by decide) (by decide)

/-- Closed instance of `compaction_put_before_deletes` at concrete
inputs. -/
theorem compaction_put_before_deletes_witness :
    (checkCompactionMergeTrace "p" "ks" "k" cexObjA [cexObjB] true)[(cexObjA :: [cexObjB]).length]?
        = some (SOp.put ((mergeKeyPath cexObjA [cexObjB]).to_path "p" "ks" "k")
            (mergeBuffer (cexObjA :: [cexObjB]))) ∧
      ∀ (j : Nat) (p : List Nat),
        (checkCompactionMergeTrace "p" "ks" "k" cexObjA [cexObjB] true)[j]?
            = some (SOp.delete p) →
          (cexObjA :: [cexObjB]).length < j :=
  compaction_put_before_deletes "p" "ks" "k" cexObjA [cexObjB] true (by simp)

end KLStore
